import Mathlib

/-!
Shallow embedding of cschladetsch/RustFindAndReplace (src/src/main.rs and
src/src/file_processor.rs) and verification of the specification's claims.

Modelling conventions:
* A filesystem path is a list of components (`FPath`), mirroring Rust
  `std::path::Path` components.
* The filesystem is an association list from paths to file records; a file
  record carries the content (text, as read by `fs::read_to_string`) and a
  writability flag (`fs::write` to a read-only file fails).  A log of
  performed write events records each `fs::write` call, so that "the program
  wrote to disk" is observable even when the written bytes equal the old ones.
* The regex engine (crate `regex`) is an external collaborator: the program
  only calls `Regex::is_match`, `Regex::replace_all` and (for printing only)
  `Regex::find_iter`.  It is modelled as a structure of those capabilities,
  quantified over in the theorems; a concrete literal-string matcher is used
  for witnesses.
* The glob engine (crate `globset`) is likewise external: `Glob::new` may
  fail, and a compiled glob matches relative paths.  It is modelled as an
  abstract compile function `String → Option Glob` where a `Glob` carries its
  matching function.
* `eprintln!` error reports are modelled as structured error values carrying
  the file path and the failure cause, accumulated in an error log distinct
  from normal output.
-/

/-- A path, as its list of components (model of Rust `std::path::Path`). -/
abbrev FPath := List String

/-- One file on disk: its text content and whether writing to it succeeds. -/
structure FileRec where
  content : String
  writable : Bool
deriving DecidableEq, Repr

/-- The filesystem: an association list from paths to file records, plus the
log of write events performed so far (each `fs::write` call appends the
target path and the written bytes). -/
structure Fs where
  files : List (FPath × FileRec)
  writeLog : List (FPath × String)
deriving DecidableEq, Repr

/-- Look a path up in an association list of file records. -/
def lookupRec : List (FPath × FileRec) → FPath → Option FileRec
  | [], _ => none
  | (q, r) :: rest, p => if q = p then some r else lookupRec rest p

/-- Model of `fs::read_to_string`: the content when the file exists, `none`
(an I/O error) when it does not. -/
def Fs.read (fs : Fs) (p : FPath) : Option String :=
  (lookupRec fs.files p).map (·.content)

/-- Replace the content of every record stored under `p`. -/
def setContent : List (FPath × FileRec) → FPath → String → List (FPath × FileRec)
  | [], _, _ => []
  | (q, r) :: rest, p, c =>
    if q = p then (q, { r with content := c }) :: setContent rest p c
    else (q, r) :: setContent rest p c

/-- Model of `fs::write`: fails (`none`) when the file exists but is not
writable; otherwise updates (or creates) the file and records the write
event. -/
def Fs.write (fs : Fs) (p : FPath) (c : String) : Option Fs :=
  match lookupRec fs.files p with
  | some r =>
    if r.writable then
      some { files := setContent fs.files p c, writeLog := fs.writeLog ++ [(p, c)] }
    else none
  | none =>
    some { files := fs.files ++ [(p, ⟨c, true⟩)], writeLog := fs.writeLog ++ [(p, c)] }

/-- The capabilities of a compiled `regex::Regex` that the program uses:
`is_match` and `replace_all content replacement`. -/
structure RegexM where
  is_match : String → Bool
  replace_all : String → String → String

/-- Whether `pat` occurs as a contiguous sublist of `s`. -/
def hasOccurrence (pat : List Char) : List Char → Bool
  | [] => pat.isEmpty
  | c :: rest => pat.isPrefixOf (c :: rest) || hasOccurrence pat rest

/-- Replace every non-overlapping occurrence of `pat` (non-empty) by `repl`,
scanning left to right; `fuel` bounds the recursion (call with the input's
length). -/
def replaceOcc (pat repl : List Char) : Nat → List Char → List Char
  | _, [] => []
  | 0, s => s
  | fuel + 1, c :: rest =>
    if pat ≠ [] ∧ pat.isPrefixOf (c :: rest) then
      repl ++ replaceOcc pat repl fuel ((c :: rest).drop pat.length)
    else c :: replaceOcc pat repl fuel rest

/-- A concrete regex model for a literal (non-empty) pattern: `is_match` is
substring containment, `replace_all` replaces every non-overlapping
occurrence left to right, as `regex::Regex` does on a pattern with no
metacharacters.  Used to instantiate witnesses. -/
def litRegex (pat : String) : RegexM where
  is_match s := hasOccurrence pat.data s.data
  replace_all s repl := ⟨replaceOcc pat.data repl.data s.data.length s.data⟩

/-- A per-file processing failure, as reported by `eprintln!` in `main`:
the failure cause (read or write) together with the file path, mirroring the
`with_context` messages `Failed to read file: {path}` and
`Failed to write file: {path}`. -/
inductive PfErr where
  | readErr (p : FPath)
  | writeErr (p : FPath)
deriving DecidableEq, Repr

/-- The path a per-file error names. -/
def PfErr.path : PfErr → FPath
  | .readErr p => p
  | .writeErr p => p

/-- Embedding of `process_file` from `src/main.rs` (lines 97–132): read the
file; no match ⇒ `Ok(false)`; on a match compute the replaced content and,
unless `dry_run`, write it back unconditionally; return `Ok(true)`.
`verbose` only drives printing and does not affect state or result. -/
def process_file (fs : Fs) (path : FPath) (regex : RegexM) (replacement : String)
    (dry_run : Bool) (verbose : Bool) : Except PfErr (Fs × Bool) :=
  match fs.read path with
  | none => .error (.readErr path)
  | some content =>
    if !regex.is_match content then .ok (fs, false)
    else
      let new_content := regex.replace_all content replacement
      let _ := verbose
      if !dry_run then
        match fs.write path new_content with
        | none => .error (.writeErr path)
        | some fs' => .ok (fs', true)
      else .ok (fs, true)

namespace FileProcessor

/-- Embedding of `process_file` from `src/file_processor.rs` (lines 6–51):
identical to the one in `main.rs` except that, when not in dry-run, it
writes only if the new content differs from the original
(`if new_content != content`). -/
def process_file (fs : Fs) (path : FPath) (regex : RegexM) (replacement : String)
    (dry_run : Bool) (verbose : Bool) : Except PfErr (Fs × Bool) :=
  match fs.read path with
  | none => .error (.readErr path)
  | some content =>
    if !regex.is_match content then .ok (fs, false)
    else
      let new_content := regex.replace_all content replacement
      let _ := verbose
      if !dry_run then
        if new_content ≠ content then
          match fs.write path new_content with
          | none => .error (.writeErr path)
          | some fs' => .ok (fs', true)
        else .ok (fs, true)
      else .ok (fs, true)

end FileProcessor

/-- A compiled glob (crate `globset`), an external collaborator: the pattern
string it was compiled from, and its matching function on relative paths. -/
structure Glob where
  pat : String
  is_match : FPath → Bool

/-- The error raised by `load_ignore_file` on a glob that fails to compile,
mirroring the context `Invalid glob pattern in {path}: {line}`: the ignore
file's name and the offending literal pattern string. -/
structure IgnoreErr where
  file : String
  line : String
deriving DecidableEq, Repr

/-- The whitespace characters relevant here (Rust `char::is_whitespace`
restricted to ASCII; ignore files are plain ASCII-ish text and the
difference is immaterial to the claims). -/
def isWsChar (c : Char) : Bool := c = ' ' || c = '\t' || c = '\r' || c = '\n'

/-- Drop leading whitespace characters. -/
def dropWs : List Char → List Char
  | [] => []
  | c :: r => if isWsChar c then dropWs r else c :: r

/-- Model of Rust `str::trim`: drop whitespace from both ends. -/
def strTrim (s : String) : String := ⟨(dropWs (dropWs s.data).reverse).reverse⟩

/-- Model of Rust `str::starts_with` with a string argument. -/
def strStarts (s t : String) : Bool := t.data.isPrefixOf s.data

/-- Model of Rust `str::is_empty`. -/
def strIsEmpty (s : String) : Bool := s.data.isEmpty

/-- Split a character list at newline characters. -/
def splitNl : List Char → List (List Char)
  | [] => [[]]
  | c :: rest =>
    match splitNl rest with
    | [] => [[]]
    | g :: gs => if c = '\n' then [] :: g :: gs else (c :: g) :: gs

/-- Model of Rust `str::lines` as used by `load_ignore_file`: split on
newline.  (`lines` also strips a final `\r` from each line and yields no
final empty segment after a trailing newline; both differences are absorbed
by the subsequent `trim` and the empty-line skip, so this model is
observationally identical there.) -/
def linesOf (s : String) : List String := (splitNl s.data).map (fun l => ⟨l⟩)

/-- The body of the loop in `load_ignore_file` (lines 165–177 of
`src/main.rs`), over the list of lines: trim each line, skip it when empty
or starting with `#`, otherwise compile it with `Glob::new` (the abstract
`gc`), failing the whole load on a compile failure and appending the
compiled glob to the builder otherwise. -/
def loadLines (gc : String → Option Glob) (fileName : String) :
    List String → List Glob → Except IgnoreErr (List Glob)
  | [], builder => .ok builder
  | l :: ls, builder =>
    let line := strTrim l
    if strIsEmpty line || strStarts line "#" then loadLines gc fileName ls builder
    else
      match gc line with
      | none => .error ⟨fileName, line⟩
      | some glob => loadLines gc fileName ls (builder ++ [glob])

/-- Embedding of `load_ignore_file` (`src/main.rs` lines 161–180): read the
ignore file's content (here passed in directly) and fold its lines into the
builder. -/
def load_ignore_file (gc : String → Option Glob) (fileName : String)
    (content : String) (builder : List Glob) : Except IgnoreErr (List Glob) :=
  loadLines gc fileName (linesOf content) builder

/-- The ignore files visible to a run: the content of `./.rr_ignore` in the
current working directory, of `{directory}/.rr_ignore` in the scan root, and
of `~/.rr_ignore` in the home directory — `none` when the file does not
exist (or, for home, when `HOME` is unset). -/
structure IgnoreEnv where
  cwdIgnore : Option String
  localIgnore : Option String
  homeIgnore : Option String

/-- One `if path.exists() { load_ignore_file(path, builder)? }` step of
`build_ignore_set`: load the ignore file into the builder when it exists,
keep the builder unchanged when it does not. -/
def loadIfPresent (gc : String → Option Glob) (name : String)
    (o : Option String) (builder : List Glob) : Except IgnoreErr (List Glob) :=
  match o with
  | some c => load_ignore_file gc name c builder
  | none => pure builder

/-- Embedding of `build_ignore_set` (`src/main.rs` lines 134–159): starting
from an empty builder, load `./.rr_ignore`, then `{directory}/.rr_ignore`,
then `~/.rr_ignore`, each only if it exists; then build the set (building a
set of individually valid globs always succeeds). -/
def build_ignore_set (gc : String → Option Glob) (env : IgnoreEnv) :
    Except IgnoreErr (List Glob) := do
  let builder : List Glob := []
  let builder ← loadIfPresent gc "./.rr_ignore" env.cwdIgnore builder
  let builder ← loadIfPresent gc "{dir}/.rr_ignore" env.localIgnore builder
  let builder ← loadIfPresent gc "~/.rr_ignore" env.homeIgnore builder
  pure builder

/-- Model of `Path::strip_prefix`: remove `base` from the front of `p`
component by component; `none` when `base` is not a prefix of `p`. -/
def stripPre : FPath → FPath → Option FPath
  | p, [] => some p
  | [], _ :: _ => none
  | a :: p, b :: q => if a = b then stripPre p q else none

/-- Embedding of `should_ignore` (`src/main.rs` lines 182–191): relativize
the path against the base directory — not under it means "not ignored" —
and test the relative path against the glob set. -/
def should_ignore (path : FPath) (base_dir : FPath) (ignore_set : List Glob) : Bool :=
  match stripPre path base_dir with
  | none => false
  | some relative_path => ignore_set.any (fun g => g.is_match relative_path)

/-- Embedding of the CLI arguments (`struct Args`, `src/main.rs` lines
9–29).  These six fields are all the arguments the program accepts; the
directory is modelled as a path.  There is in particular no flag concerning
hidden files. -/
structure Args where
  pattern : String
  replace : String
  directory : FPath
  extensions : Option String
  dry_run : Bool
  verbose : Bool

mutual
/-- A directory tree on disk: a regular file with its record, or a directory
with its children.  (Symlinks and special files are not modelled; the
program skips every non-regular-file entry.) -/
inductive FTree where
  | file (name : String) (rec : FileRec)
  | dir (name : String) (children : Forest)
/-- A list of sibling directory entries. -/
inductive Forest where
  | nil
  | cons (t : FTree) (ts : Forest)
end

mutual
/-- The relative paths of the regular files under one entry, in the
depth-first order `WalkDir` yields them.  `WalkDir` performs no name-based
filtering: every entry, hidden or not, is enumerated. -/
def walkTree : FTree → List FPath
  | .file n _ => [[n]]
  | .dir n cs => (walkForest cs).map (fun p => n :: p)
/-- The relative paths of the regular files in a forest. -/
def walkForest : Forest → List FPath
  | .nil => []
  | .cons t ts => walkTree t ++ walkForest ts
end

mutual
/-- The files under one entry as filesystem entries keyed by relative path. -/
def filesOfTree : FTree → List (FPath × FileRec)
  | .file n r => [([n], r)]
  | .dir n cs => (filesOfForest cs).map (fun e => (n :: e.1, e.2))
/-- The files of a forest as filesystem entries keyed by relative path. -/
def filesOfForest : Forest → List (FPath × FileRec)
  | .nil => []
  | .cons t ts => filesOfTree t ++ filesOfForest ts
end

/-- Model of splitting a string at `,` (Rust `str::split(',')` as used on
the `--extensions` argument), on the character list. -/
def splitComma : List Char → List (List Char)
  | [] => [[]]
  | c :: rest =>
    match splitComma rest with
    | [] => [[]]
    | g :: gs => if c = ',' then [] :: g :: gs else (c :: g) :: gs

/-- The extension list from the `--extensions` argument:
`ext.split(',').collect()`. -/
def extsOf (s : String) : List String := (splitComma s.data).map (fun l => ⟨l⟩)

/-- Helper for `extOf`, on the reversed character list of a file name: the
(reversed) characters before the first `.`, provided that `.` is not the
first character of the name. -/
def revExt : List Char → Option (List Char)
  | [] => none
  | c :: rest =>
    if c = '.' then (if rest.isEmpty then none else some [])
    else (revExt rest).map (c :: ·)

/-- Model of `Path::extension` on a file name: the part after the last `.`,
except that a name whose only `.` is its first character (such as
`.gitignore`) has no extension. -/
def extOf (name : String) : Option String :=
  (revExt name.data.reverse).map (fun l => ⟨l.reverse⟩)

/-- The extension filter in `main` (`src/main.rs` lines 63–72):
`path.extension().and_then(to_str).map(|ext| exts.contains(&ext))
.unwrap_or(false)` when an allow-list is configured, vacuously true
otherwise. -/
def extOk (extensions : Option (List String)) (path : FPath) : Bool :=
  match extensions with
  | none => true
  | some exts => (((path.getLast?.bind extOf).map (fun e => exts.contains e)).getD false)

/-- The mutable state of `main`'s traversal loop: the filesystem, the two
counters `total_files` and `modified_files`, and the log of per-file errors
written to stderr. -/
structure RunState where
  fs : Fs
  total_files : Nat
  modified_files : Nat
  errors : List PfErr
deriving DecidableEq, Repr

/-- One iteration of `main`'s loop (`src/main.rs` lines 46–85) on a
candidate file path: skip it if ignored or extension-filtered; otherwise run
`process_file`, incrementing `total_files` on success and `modified_files`
when it returned `true`, and logging the error (leaving both counters
untouched) on failure. -/
def step (regex : RegexM) (replace : String) (dry_run : Bool) (verbose : Bool)
    (directory : FPath) (extensions : Option (List String)) (ignore_set : List Glob)
    (st : RunState) (path : FPath) : RunState :=
  if should_ignore path directory ignore_set then st
  else if !extOk extensions path then st
  else
    match process_file st.fs path regex replace dry_run verbose with
    | .ok (fs', modified) =>
      { st with
        fs := fs'
        total_files := st.total_files + 1
        modified_files := st.modified_files + (if modified then 1 else 0) }
    | .error e => { st with errors := st.errors ++ [e] }

/-- The whole traversal loop, folded over the candidate paths. -/
def runLoop (regex : RegexM) (replace : String) (dry_run : Bool) (verbose : Bool)
    (directory : FPath) (extensions : Option (List String)) (ignore_set : List Glob)
    (paths : List FPath) (st : RunState) : RunState :=
  paths.foldl (step regex replace dry_run verbose directory extensions ignore_set) st

/-- A fatal, run-aborting error in `main`: the regex pattern failed to
compile (`Invalid regex pattern: {pattern}`), or ignore-set resolution
failed. -/
inductive FatalErr where
  | invalidPattern (pat : String)
  | ignoreErr (e : IgnoreErr)
deriving DecidableEq, Repr

/-- Embedding of `main` (`src/main.rs` lines 31–95).  `rc` models
`Regex::new`, `gc` models `Glob::new`, `env` the ignore files, and `root`
the directory tree under `args.directory` (`none` when that directory does
not exist — `WalkDir` then yields a single error entry which
`filter_map(|e| e.ok())` discards, so the loop sees no files; an absent
tree and an empty tree are observationally identical).  Compile the regex,
split the extension list, build the ignore set, then fold the loop over the
files `WalkDir` enumerates (directory entries are skipped by the
`is_file` test and never processed).  Returns the final loop state, whose
counters are the printed summary. -/
def mainRun (rc : String → Option RegexM) (gc : String → Option Glob)
    (env : IgnoreEnv) (root : Option Forest) (args : Args) :
    Except FatalErr RunState :=
  match rc args.pattern with
  | none => .error (.invalidPattern args.pattern)
  | some regex =>
    let extensions : Option (List String) := args.extensions.map extsOf
    match build_ignore_set gc env with
    | .error e => .error (.ignoreErr e)
    | .ok ignore_set =>
      let fs0 : Fs :=
        ⟨(filesOfForest (root.getD .nil)).map (fun e => (args.directory ++ e.1, e.2)), []⟩
      let paths := (walkForest (root.getD .nil)).map (fun p => args.directory ++ p)
      .ok (runLoop regex args.replace args.dry_run args.verbose args.directory
            extensions ignore_set paths ⟨fs0, 0, 0, []⟩)

/-- Concrete `Regex::new` model for witnesses: every pattern compiles, to
the literal matcher. -/
def rcLit : String → Option RegexM := fun p => some (litRegex p)

/-- Concrete `Glob::new` model for witnesses: a pattern starting with `[`
fails to compile (as an unclosed character class does in `globset`); any
other pattern compiles to a glob matching exactly the one-component
relative path equal to the pattern. -/
def gcLit : String → Option Glob :=
  fun s => if s.data.headI = '[' then none else some ⟨s, fun rel => decide (rel = [s])⟩

/-- No ignore file exists in any of the three locations. -/
def envNone : IgnoreEnv := ⟨none, none, none⟩

/-- Whether a `process_file` result is `Ok` (the file counts as processed). -/
def okRes : Except PfErr (Fs × Bool) → Bool
  | .ok _ => true
  | .error _ => false

/-- Whether a `process_file` result is `Ok(true)` (the file counts as
modified). -/
def okTrue : Except PfErr (Fs × Bool) → Bool
  | .ok (_, true) => true
  | _ => false

/-- The `Ok`/`Err` outcome of a `process_file` result, with the filesystem
component dropped. -/
def resOutcome (r : Except PfErr (Fs × Bool)) : Except PfErr Bool := r.map (·.2)

/-- The on-disk content of `q` after a `process_file` result: the updated
filesystem's content on success, the untouched filesystem's content on
error. -/
def finalRead : Except PfErr (Fs × Bool) → Fs → FPath → Option String
  | .ok (fs', _), _, q => fs'.read q
  | .error _, fs, q => fs.read q

/-- The file at `p`, if present, is writable. -/
def writableIfPresent (fs : Fs) (p : FPath) : Prop :=
  ∀ r, lookupRec fs.files p = some r → r.writable = true

/-- A line `load_ignore_file` skips: empty after trimming, or starting (after
trimming) with `#`. -/
def skipsLine (l : String) : Bool :=
  strIsEmpty (strTrim l) || strStarts (strTrim l) "#"

/-- A line that fails the load: not skipped, and its trimmed pattern does
not compile. -/
def badLine (gc : String → Option Glob) (l : String) : Bool :=
  !skipsLine l && (gc (strTrim l)).isNone

/-- One ignore source loaded in isolation (empty builder): the empty set
when the file does not exist. -/
def loadSrc (gc : String → Option Glob) (name : String) :
    Option String → Except IgnoreErr (List Glob)
  | some c => load_ignore_file gc name c []
  | none => .ok []

/-! ### Helper lemmas about the filesystem primitives -/

theorem lookupRec_setContent (l : List (FPath × FileRec)) (p q : FPath) (c : String) :
    lookupRec (setContent l p c) q =
      if q = p then (lookupRec l p).map (fun r => { r with content := c })
      else lookupRec l q := by
  induction l with
  | nil => simp [lookupRec, setContent]
  | cons hd tl ih =>
    obtain ⟨k, r⟩ := hd
    by_cases hkp : k = p
    · subst hkp
      by_cases hqk : q = k
      · subst hqk
        simp [lookupRec, setContent]
      · simp [lookupRec, setContent, hqk, Ne.symm hqk, ih]
    · by_cases hqk : q = k
      · subst hqk
        simp [lookupRec, setContent, hkp, Ne.symm hkp]
      · simp [lookupRec, setContent, hkp, Ne.symm hqk, ih]

theorem lookupRec_append (l₁ l₂ : List (FPath × FileRec)) (q : FPath) :
    lookupRec (l₁ ++ l₂) q = (lookupRec l₁ q).or (lookupRec l₂ q) := by
  induction l₁ with
  | nil => simp [lookupRec]
  | cons hd tl ih =>
    obtain ⟨k, r⟩ := hd
    by_cases hqk : k = q
    · simp [lookupRec, hqk]
    · simp [lookupRec, hqk, ih]

theorem lookupRec_mem {l : List (FPath × FileRec)} {p : FPath} {r : FileRec}
    (h : lookupRec l p = some r) : (p, r) ∈ l := by
  induction l with
  | nil => simp [lookupRec] at h
  | cons hd tl ih =>
    obtain ⟨k, r'⟩ := hd
    by_cases hk : k = p
    · subst hk
      simp [lookupRec] at h
      subst h
      exact List.mem_cons_self _ _
    · simp [lookupRec, hk] at h
      exact List.mem_cons_of_mem _ (ih h)

theorem write_writeLog {fs : Fs} {p : FPath} {c : String} {fs' : Fs}
    (h : Fs.write fs p c = some fs') : fs'.writeLog = fs.writeLog ++ [(p, c)] := by
  unfold Fs.write at h
  rcases hl : lookupRec fs.files p with _ | r <;> rw [hl] at h
  · exact (Option.some_injective _ h.symm) ▸ rfl
  · by_cases hw : r.writable <;> simp [hw] at h
    exact h ▸ rfl

theorem write_of_present {fs : Fs} {p : FPath} {r : FileRec}
    (hl : lookupRec fs.files p = some r) (hw : r.writable = true) (c : String) :
    Fs.write fs p c = some ⟨setContent fs.files p c, fs.writeLog ++ [(p, c)]⟩ := by
  unfold Fs.write
  rw [hl]
  simp [hw]

theorem write_fail_of_unwritable {fs : Fs} {p : FPath} {r : FileRec}
    (hl : lookupRec fs.files p = some r) (hw : r.writable = false) (c : String) :
    Fs.write fs p c = none := by
  unfold Fs.write
  rw [hl]
  simp [hw]

theorem read_write {fs : Fs} {p : FPath} {c : String} {fs' : Fs}
    (h : Fs.write fs p c = some fs') (q : FPath) :
    fs'.read q = if q = p then some c else fs.read q := by
  unfold Fs.write at h
  rcases hl : lookupRec fs.files p with _ | r <;> rw [hl] at h
  · cases h
    by_cases hq : q = p
    · subst hq
      simp [Fs.read, lookupRec_append, hl, lookupRec]
    · simp [Fs.read, lookupRec_append, hq, lookupRec, Ne.symm hq]
  · by_cases hw : r.writable <;> simp [hw] at h
    cases h
    by_cases hq : q = p
    · subst hq
      simp [Fs.read, lookupRec_setContent, hl]
    · simp [Fs.read, lookupRec_setContent, hq]

theorem writable_write {fs : Fs} {p : FPath} {c : String} {fs' : Fs}
    (h : Fs.write fs p c = some fs') (q : FPath) (hq : writableIfPresent fs q) :
    writableIfPresent fs' q := by
  unfold Fs.write at h
  rcases hl : lookupRec fs.files p with _ | r <;> rw [hl] at h
  · cases h
    intro r' hr'
    rw [show (({ files := fs.files ++ [(p, ⟨c, true⟩)], writeLog := fs.writeLog ++ [(p, c)] } : Fs)).files
          = fs.files ++ [(p, ⟨c, true⟩)] from rfl, lookupRec_append] at hr'
    rcases ho : lookupRec fs.files q with _ | r₀ <;> rw [ho] at hr'
    · simp [lookupRec] at hr'
      by_cases hqp : p = q
      · simp [hqp] at hr'
        rw [← hr']
      · simp [hqp] at hr'
    · simp at hr'
      exact hr' ▸ hq r₀ ho
  · by_cases hw : r.writable <;> simp [hw] at h
    cases h
    intro r' hr'
    rw [show (({ files := setContent fs.files p c, writeLog := fs.writeLog ++ [(p, c)] } : Fs)).files
          = setContent fs.files p c from rfl, lookupRec_setContent] at hr'
    by_cases hqp : q = p
    · rw [if_pos hqp, hl] at hr'
      simp at hr'
      rw [← hr']
      exact hw
    · rw [if_neg hqp] at hr'
      exact hq r' hr'

/-! ### Helper lemmas about `process_file` and the traversal loop -/

theorem process_file_error_path {fs : Fs} {p : FPath} {rx : RegexM} {repl : String}
    {d v : Bool} {e : PfErr} (h : process_file fs p rx repl d v = .error e) :
    e.path = p := by
  unfold process_file at h
  split at h
  · injection h with h
    subst h
    rfl
  · split at h
    · simp at h
    · split at h
      · dsimp only at h
        split at h
        · injection h with h
          subst h
          rfl
        · simp at h
      · simp at h

theorem process_file_dry_eq (fs : Fs) (p : FPath) (rx : RegexM) (repl : String) (v : Bool) :
    process_file fs p rx repl true v =
      match fs.read p with
      | none => .error (.readErr p)
      | some c => .ok (fs, rx.is_match c) := by
  unfold process_file
  rcases fs.read p with _ | c
  · rfl
  · by_cases hm : rx.is_match c <;> simp [hm]

theorem step_dry_fs (rx : RegexM) (repl : String) (v : Bool) (dir : FPath)
    (exts : Option (List String)) (gs : List Glob) (st : RunState) (p : FPath) :
    (step rx repl true v dir exts gs st p).fs = st.fs := by
  unfold step
  by_cases h1 : should_ignore p dir gs <;> simp [h1]
  by_cases h2 : extOk exts p <;> simp [h2]
  rw [process_file_dry_eq]
  rcases st.fs.read p with _ | c <;> simp

theorem runLoop_dry_fs (rx : RegexM) (repl : String) (v : Bool) (dir : FPath)
    (exts : Option (List String)) (gs : List Glob) (ps : List FPath) :
    ∀ st : RunState, (runLoop rx repl true v dir exts gs ps st).fs = st.fs := by
  induction ps with
  | nil => intro st; rfl
  | cons p ps ih =>
    intro st
    show (runLoop rx repl true v dir exts gs ps (step rx repl true v dir exts gs st p)).fs = st.fs
    rw [ih, step_dry_fs]

theorem runLoop_cons (rx : RegexM) (repl : String) (dry v : Bool) (dir : FPath)
    (exts : Option (List String)) (gs : List Glob) (p : FPath) (ps : List FPath)
    (st : RunState) :
    runLoop rx repl dry v dir exts gs (p :: ps) st
      = runLoop rx repl dry v dir exts gs ps (step rx repl dry v dir exts gs st p) := rfl

theorem runLoop_nil (rx : RegexM) (repl : String) (dry v : Bool) (dir : FPath)
    (exts : Option (List String)) (gs : List Glob) (st : RunState) :
    runLoop rx repl dry v dir exts gs [] st = st := rfl

theorem step_skip {rx : RegexM} {repl : String} {dry v : Bool} {dir : FPath}
    {exts : Option (List String)} {gs : List Glob} {st : RunState} {p : FPath}
    (h : should_ignore p dir gs = true ∨ extOk exts p = false) :
    step rx repl dry v dir exts gs st p = st := by
  unfold step
  rcases h with h | h
  · simp [h]
  · by_cases hig : should_ignore p dir gs <;> simp [hig, h]

theorem step_of_pf {rx : RegexM} {repl : String} {dry v : Bool} {dir : FPath}
    {exts : Option (List String)} {gs : List Glob} {st : RunState} {p : FPath}
    (hig : should_ignore p dir gs = false) (hext : extOk exts p = true) :
    step rx repl dry v dir exts gs st p =
      match process_file st.fs p rx repl dry v with
      | .ok (fs', m) =>
        { st with
          fs := fs'
          total_files := st.total_files + 1
          modified_files := st.modified_files + (if m then 1 else 0) }
      | .error e => { st with errors := st.errors ++ [e] } := by
  unfold step
  simp [hig, hext]

theorem process_file_real_eq (fs : Fs) (p : FPath) (rx : RegexM) (repl : String) (v : Bool) :
    process_file fs p rx repl false v =
      match fs.read p with
      | none => .error (.readErr p)
      | some c =>
        if rx.is_match c then
          match fs.write p (rx.replace_all c repl) with
          | none => .error (.writeErr p)
          | some fs' => .ok (fs', true)
        else .ok (fs, false) := by
  unfold process_file
  rcases fs.read p with _ | c
  · rfl
  · by_cases hm : rx.is_match c <;> simp [hm]

theorem read_some_iff {fs : Fs} {p : FPath} {c : String} :
    fs.read p = some c ↔ ∃ r, lookupRec fs.files p = some r ∧ r.content = c := by
  unfold Fs.read
  cases lookupRec fs.files p <;> simp

theorem runLoop_dry_real_counts (rx : RegexM) (repl : String) (v : Bool) (dir : FPath)
    (exts : Option (List String)) (gs : List Glob) :
    ∀ (ps : List FPath) (st₁ st₂ : RunState), ps.Nodup →
      (∀ p ∈ ps, st₁.fs.read p = st₂.fs.read p) →
      (∀ p ∈ ps, writableIfPresent st₂.fs p) →
      st₁.total_files = st₂.total_files →
      st₁.modified_files = st₂.modified_files →
      (runLoop rx repl true v dir exts gs ps st₁).total_files
        = (runLoop rx repl false v dir exts gs ps st₂).total_files ∧
      (runLoop rx repl true v dir exts gs ps st₁).modified_files
        = (runLoop rx repl false v dir exts gs ps st₂).modified_files := by
  intro ps
  induction ps with
  | nil =>
    intro st₁ st₂ _ _ _ ht hm
    exact ⟨ht, hm⟩
  | cons p ps ih =>
    intro st₁ st₂ hnd hagree hwr ht hm
    have hpni : p ∉ ps := (List.nodup_cons.mp hnd).1
    have hnd' : ps.Nodup := (List.nodup_cons.mp hnd).2
    have hagreep : st₁.fs.read p = st₂.fs.read p := hagree p (List.mem_cons_self _ _)
    have hwrp : writableIfPresent st₂.fs p := hwr p (List.mem_cons_self _ _)
    rw [runLoop_cons, runLoop_cons]
    by_cases hig : should_ignore p dir gs
    · rw [step_skip (Or.inl hig), step_skip (Or.inl hig)]
      exact ih st₁ st₂ hnd' (fun q hq => hagree q (List.mem_cons_of_mem _ hq))
        (fun q hq => hwr q (List.mem_cons_of_mem _ hq)) ht hm
    · by_cases hext : extOk exts p
      · -- the file is processed in both runs
        have hig' : should_ignore p dir gs = false := by simp [hig]
        rcases hr : st₁.fs.read p with _ | c
        · -- read fails in both runs: error logged, counters and fs untouched
          have hr₂ : st₂.fs.read p = none := by rw [← hagreep, hr]
          have e₁ : step rx repl true v dir exts gs st₁ p
              = { st₁ with errors := st₁.errors ++ [.readErr p] } := by
            rw [step_of_pf hig' hext, process_file_dry_eq, hr]
          have e₂ : step rx repl false v dir exts gs st₂ p
              = { st₂ with errors := st₂.errors ++ [.readErr p] } := by
            rw [step_of_pf hig' hext, process_file_real_eq, hr₂]
          rw [e₁, e₂]
          exact ih _ _ hnd' (fun q hq => hagree q (List.mem_cons_of_mem _ hq))
            (fun q hq => hwr q (List.mem_cons_of_mem _ hq)) ht hm
        · have hr₂ : st₂.fs.read p = some c := by rw [← hagreep, hr]
          by_cases hmt : rx.is_match c
          · -- matched: the real run writes, and the write succeeds
            obtain ⟨r, hlr, _⟩ := read_some_iff.mp hr₂
            have hwres := write_of_present hlr (hwrp r hlr) (rx.replace_all c repl)
            have e₁ : step rx repl true v dir exts gs st₁ p
                = { st₁ with
                    total_files := st₁.total_files + 1
                    modified_files := st₁.modified_files + 1 } := by
              rw [step_of_pf hig' hext, process_file_dry_eq, hr]
              simp [hmt]
            have e₂ : step rx repl false v dir exts gs st₂ p
                = { st₂ with
                    fs := ⟨setContent st₂.fs.files p (rx.replace_all c repl),
                           st₂.fs.writeLog ++ [(p, rx.replace_all c repl)]⟩
                    total_files := st₂.total_files + 1
                    modified_files := st₂.modified_files + 1 } := by
              rw [step_of_pf hig' hext, process_file_real_eq, hr₂]
              simp [hmt, hwres]
            rw [e₁, e₂]
            refine ih _ _ hnd' ?_ ?_ (by simp [ht]) (by simp [hm])
            · intro q hq
              have hqp : q ≠ p := fun h => hpni (h ▸ hq)
              have hrw := read_write hwres q
              rw [if_neg hqp] at hrw
              show st₁.fs.read q = _
              rw [show ({ st₂ with
                    fs := ⟨setContent st₂.fs.files p (rx.replace_all c repl),
                           st₂.fs.writeLog ++ [(p, rx.replace_all c repl)]⟩
                    total_files := st₂.total_files + 1
                    modified_files := st₂.modified_files + 1 } : RunState).fs
                  = (⟨setContent st₂.fs.files p (rx.replace_all c repl),
                      st₂.fs.writeLog ++ [(p, rx.replace_all c repl)]⟩ : Fs) from rfl, hrw]
              exact hagree q (List.mem_cons_of_mem _ hq)
            · intro q hq
              exact writable_write hwres q (hwr q (List.mem_cons_of_mem _ hq))
          · -- not matched: both runs count the file as processed, unmodified
            have e₁ : step rx repl true v dir exts gs st₁ p
                = { st₁ with total_files := st₁.total_files + 1 } := by
              rw [step_of_pf hig' hext, process_file_dry_eq, hr]
              simp [hmt]
            have e₂ : step rx repl false v dir exts gs st₂ p
                = { st₂ with total_files := st₂.total_files + 1 } := by
              rw [step_of_pf hig' hext, process_file_real_eq, hr₂]
              simp [hmt]
            rw [e₁, e₂]
            exact ih _ _ hnd' (fun q hq => hagree q (List.mem_cons_of_mem _ hq))
              (fun q hq => hwr q (List.mem_cons_of_mem _ hq)) (by simp [ht]) (by simp [hm])
      · rw [step_skip (Or.inr (by simp [hext])), step_skip (Or.inr (by simp [hext]))]
        exact ih st₁ st₂ hnd' (fun q hq => hagree q (List.mem_cons_of_mem _ hq))
          (fun q hq => hwr q (List.mem_cons_of_mem _ hq)) ht hm

/-! ### Helper lemmas about ignore files and path relativization -/

theorem loadLines_append (gc : String → Option Glob) (f : String) :
    ∀ (ls : List String) (b : List Glob),
      loadLines gc f ls b = (loadLines gc f ls []).map (b ++ ·) := by
  intro ls
  induction ls with
  | nil =>
    intro b
    simp [loadLines, Except.map]
  | cons l ls ih =>
    intro b
    unfold loadLines
    by_cases hskip : strIsEmpty (strTrim l) || strStarts (strTrim l) "#"
    · simp only [hskip, if_true]
      exact ih b
    · simp only [hskip, if_false, Bool.false_eq_true]
      rcases hgc : gc (strTrim l) with _ | g
      · rfl
      · dsimp only
        simp only [List.nil_append]
        rw [ih (b ++ [g]), ih [g]]
        cases loadLines gc f ls [] <;> simp [Except.map]

theorem loadLines_ok (gc : String → Option Glob) (f : String) :
    ∀ (ls : List String) (b : List Glob), (∀ l ∈ ls, badLine gc l = false) →
      ∃ gs, loadLines gc f ls b = .ok (b ++ gs) := by
  intro ls
  induction ls with
  | nil =>
    intro b _
    exact ⟨[], by simp [loadLines]⟩
  | cons l ls ih =>
    intro b hall
    have hl := hall l (List.mem_cons_self _ _)
    have hrest := fun q hq => hall q (List.mem_cons_of_mem _ hq)
    unfold loadLines
    by_cases hskip : strIsEmpty (strTrim l) || strStarts (strTrim l) "#"
    · simp only [hskip, if_true]
      exact ih b hrest
    · simp only [hskip, if_false, Bool.false_eq_true]
      have hor : (strIsEmpty (strTrim l) || strStarts (strTrim l) "#") = false := by
        cases h' : (strIsEmpty (strTrim l) || strStarts (strTrim l) "#")
        · rfl
        · exact absurd h' hskip
      have hsk : skipsLine l = false := by unfold skipsLine; exact hor
      rcases hgc : gc (strTrim l) with _ | g
      · exfalso
        unfold badLine at hl
        rw [hsk, hgc] at hl
        simp at hl
      · obtain ⟨gs, hgs⟩ := ih (b ++ [g]) hrest
        refine ⟨g :: gs, ?_⟩
        dsimp only
        rw [hgs]
        simp

theorem loadLines_err (gc : String → Option Glob) (f : String) :
    ∀ (ls : List String) (b : List Glob) (l₀ : String),
      ls.find? (badLine gc) = some l₀ →
      loadLines gc f ls b = .error ⟨f, strTrim l₀⟩ := by
  intro ls
  induction ls with
  | nil =>
    intro b l₀ h
    simp at h
  | cons l ls ih =>
    intro b l₀ h
    unfold loadLines
    by_cases hskip : strIsEmpty (strTrim l) || strStarts (strTrim l) "#"
    · -- a skipped line is never the bad line
      have hsk : skipsLine l = true := by unfold skipsLine; exact hskip
      have hbad : badLine gc l = false := by unfold badLine; rw [hsk]; rfl
      rw [List.find?_cons_of_neg _ (by simp [hbad])] at h
      simp only [hskip, if_true]
      exact ih b l₀ h
    · have hor : (strIsEmpty (strTrim l) || strStarts (strTrim l) "#") = false := by
        cases h' : (strIsEmpty (strTrim l) || strStarts (strTrim l) "#")
        · rfl
        · exact absurd h' hskip
      have hsk : skipsLine l = false := by unfold skipsLine; exact hor
      simp only [hskip, if_false, Bool.false_eq_true]
      rcases hgc : gc (strTrim l) with _ | g
      · -- this line fails to compile, so it is the first bad line
        have hbad : badLine gc l = true := by unfold badLine; rw [hsk, hgc]; rfl
        rw [List.find?_cons_of_pos _ hbad] at h
        injection h with h
        subst h
        rfl
      · have hbad : badLine gc l = false := by unfold badLine; rw [hsk, hgc]; rfl
        rw [List.find?_cons_of_neg _ (by simp [hbad])] at h
        dsimp only
        exact ih _ _ h

theorem stripPre_eq (p b : FPath) :
    stripPre p b = if b <+: p then some (p.drop b.length) else none := by
  induction b generalizing p with
  | nil => simp [stripPre]
  | cons x b ih =>
    cases p with
    | nil => simp [stripPre]
    | cons a p =>
      by_cases hax : a = x
      · subst hax
        simp [stripPre, ih, List.cons_prefix_cons]
      · simp only [stripPre, if_neg hax, List.cons_prefix_cons]
        rw [if_neg (by exact fun hc => hax hc.1.symm)]

theorem should_ignore_nil (p d : FPath) : should_ignore p d [] = false := by
  unfold should_ignore
  cases stripPre p d <;> rfl

/-! ### Claim theorems -/

/-- Claim C9: for every candidate path and scan root, `should_ignore`
returns `false` (without raising any error) when the candidate is not under
the scan root, and otherwise returns `true` iff the path relative to the
scan root matches at least one compiled ignore pattern. -/
theorem should_ignore_spec (path base : FPath) (s : List Glob) :
    (¬ base <+: path → should_ignore path base s = false) ∧
    (base <+: path →
      (should_ignore path base s = true ↔
        ∃ g ∈ s, g.is_match (path.drop base.length) = true)) := by
  constructor
  · intro h
    unfold should_ignore
    rw [stripPre_eq, if_neg h]
  · intro h
    unfold should_ignore
    rw [stripPre_eq, if_pos h]
    simp [List.any_eq_true]

/-- Witness for `should_ignore_spec`: a path outside the scan root is not
ignored; a path under the scan root is ignored iff a pattern matches its
relative path. -/
theorem should_ignore_spec_witness :
    should_ignore ["b", "c"] ["a"] [] = false ∧
    (should_ignore ["a", "x"] ["a"] [⟨"x", fun rel => decide (rel = ["x"])⟩] = true ↔
      ∃ g ∈ [(⟨"x", fun rel => decide (rel = ["x"])⟩ : Glob)],
        g.is_match (["a", "x"].drop (["a"] : FPath).length) = true) := by
  constructor
  · exact (should_ignore_spec ["b", "c"] ["a"] []).1
      (by rintro ⟨t, ht⟩; simp at ht)
  · exact (should_ignore_spec ["a", "x"] ["a"] _).2 ⟨["x"], rfl⟩

/-- Claim C8: in every ignore file, lines that are empty after trimming or
whose first non-whitespace character is `#` are skipped; any other line
whose trimmed text fails to compile as a glob fails the entire load — the
result is an error, never a partially built set — and the error names the
ignore file and the literal (trimmed) pattern string; when every
non-skipped line compiles, the load succeeds and appends the compiled globs
to the builder. -/
theorem load_ignore_file_spec (gc : String → Option Glob) (f content : String)
    (b : List Glob) :
    (∀ l ls b', skipsLine l = true →
      loadLines gc f (l :: ls) b' = loadLines gc f ls b') ∧
    (∀ l₀, (linesOf content).find? (badLine gc) = some l₀ →
      load_ignore_file gc f content b = .error ⟨f, strTrim l₀⟩) ∧
    ((∀ l ∈ linesOf content, badLine gc l = false) →
      ∃ gs, load_ignore_file gc f content b = .ok (b ++ gs)) := by
  refine ⟨?_, ?_, ?_⟩
  · intro l ls b' hskip
    unfold skipsLine at hskip
    conv_lhs => unfold loadLines
    simp [hskip]
  · intro l₀ h
    exact loadLines_err gc f _ b l₀ h
  · intro hall
    exact loadLines_ok gc f _ b hall

/-- Witness for `load_ignore_file_spec`: a comment line is skipped; a file
with an uncompilable pattern fails naming the file and the pattern; a clean
file loads. -/
theorem load_ignore_file_spec_witness :
    loadLines gcLit "./.rr_ignore" ["# c", "ok"] [] = loadLines gcLit "./.rr_ignore" ["ok"] [] ∧
    load_ignore_file gcLit "./.rr_ignore" "ok\n[bad" [] = .error ⟨"./.rr_ignore", "[bad"⟩ ∧
    ∃ gs, load_ignore_file gcLit "./.rr_ignore" "ok\n# c" [] = .ok ([] ++ gs) := by
  refine ⟨(load_ignore_file_spec gcLit "./.rr_ignore" "" []).1 "# c" ["ok"] [] (by rfl),
    (load_ignore_file_spec gcLit "./.rr_ignore" "ok\n[bad" []).2.1 "[bad" (by rfl),
    (load_ignore_file_spec gcLit "./.rr_ignore" "ok\n# c" []).2.2 (by decide)⟩

/-- Claim C7: a per-file processing failure is recorded on the error channel
with the failing file's path (and the read/write cause), the file is
excluded from both counters (the step changes neither `total_files` nor
`modified_files`), and the loop continues with the remaining files. -/
theorem per_file_error_spec (rx : RegexM) (repl : String) (dry v : Bool)
    (dir : FPath) (exts : Option (List String)) (gs : List Glob)
    (st : RunState) (p : FPath) (e : PfErr) (ys : List FPath)
    (hig : should_ignore p dir gs = false) (hext : extOk exts p = true)
    (herr : process_file st.fs p rx repl dry v = .error e) :
    e.path = p ∧
    step rx repl dry v dir exts gs st p = { st with errors := st.errors ++ [e] } ∧
    runLoop rx repl dry v dir exts gs (p :: ys) st
      = runLoop rx repl dry v dir exts gs ys { st with errors := st.errors ++ [e] } := by
  have hstep : step rx repl dry v dir exts gs st p
      = { st with errors := st.errors ++ [e] } := by
    rw [step_of_pf hig hext, herr]
  exact ⟨process_file_error_path herr, hstep, by rw [runLoop_cons, hstep]⟩

/-- Witness for `per_file_error_spec`: a file that cannot be read is logged
by path, not counted, and the loop goes on. -/
theorem per_file_error_spec_witness :
    (PfErr.readErr ["r", "gone.txt"]).path = ["r", "gone.txt"] ∧
    step (litRegex "a") "b" false false ["r"] none [] ⟨⟨[], []⟩, 0, 0, []⟩ ["r", "gone.txt"]
      = ⟨⟨[], []⟩, 0, 0, [.readErr ["r", "gone.txt"]]⟩ ∧
    runLoop (litRegex "a") "b" false false ["r"] none [] [["r", "gone.txt"]]
        ⟨⟨[], []⟩, 0, 0, []⟩
      = runLoop (litRegex "a") "b" false false ["r"] none [] []
          ⟨⟨[], []⟩, 0, 0, [.readErr ["r", "gone.txt"]]⟩ :=
  per_file_error_spec (litRegex "a") "b" false false ["r"] none []
    ⟨⟨[], []⟩, 0, 0, []⟩ ["r", "gone.txt"] (.readErr ["r", "gone.txt"]) []
    (by rfl) (by rfl) (by rfl)

/-- Counterexample to claim C6 as stated: a scan root that does not exist
does not abort the run — with a valid pattern and no ignore files, `main`
returns a normal zero-count summary instead of an error, because the
directory is never canonicalized and `filter_map(|e| e.ok())` silently
drops the error entry `WalkDir` yields for a missing root. -/
theorem missing_root_cex :
    mainRun rcLit gcLit envNone none ⟨"foo", "bar", ["missing"], none, false, false⟩
      = .ok ⟨⟨[], []⟩, 0, 0, []⟩ := by rfl

/-- Claim C6 (amended): an invalid pattern string and an unparseable
ignore-file glob are fatal and abort the run before any file is touched; a
scan root that does not exist, however, does not abort: the run completes
normally with zero counts and no filesystem effect. -/
theorem fatal_error_spec (rc : String → Option RegexM) (gc : String → Option Glob)
    (env : IgnoreEnv) (root : Option Forest) (args : Args) :
    (rc args.pattern = none →
      mainRun rc gc env root args = .error (.invalidPattern args.pattern)) ∧
    (∀ rx e, rc args.pattern = some rx → build_ignore_set gc env = .error e →
      mainRun rc gc env root args = .error (.ignoreErr e)) ∧
    (∀ rx s, root = none → rc args.pattern = some rx →
      build_ignore_set gc env = .ok s →
      mainRun rc gc env root args = .ok ⟨⟨[], []⟩, 0, 0, []⟩) := by
  refine ⟨?_, ?_, ?_⟩
  · intro h
    unfold mainRun
    rw [h]
  · intro rx e h hb
    unfold mainRun
    rw [h, hb]
  · intro rx s hroot h hb
    subst hroot
    unfold mainRun
    rw [h, hb]
    rfl

/-- Witness for `fatal_error_spec`: a failing pattern compile aborts, a bad
ignore glob aborts, and a missing root completes with zero counts. -/
theorem fatal_error_spec_witness :
    mainRun (fun _ => none) gcLit envNone none ⟨"(", "r", ["d"], none, false, false⟩
      = .error (.invalidPattern "(") ∧
    mainRun rcLit gcLit ⟨some "[bad", none, none⟩ none ⟨"a", "r", ["d"], none, false, false⟩
      = .error (.ignoreErr ⟨"./.rr_ignore", "[bad"⟩) ∧
    mainRun rcLit gcLit envNone none ⟨"a", "r", ["d"], none, false, false⟩
      = .ok ⟨⟨[], []⟩, 0, 0, []⟩ := by
  refine ⟨(fatal_error_spec (fun _ => none) gcLit envNone none _).1 rfl,
    (fatal_error_spec rcLit gcLit ⟨some "[bad", none, none⟩ none _).2.1
      (litRegex "a") ⟨"./.rr_ignore", "[bad"⟩ rfl (by rfl),
    (fatal_error_spec rcLit gcLit envNone none _).2.2 (litRegex "a") [] rfl rfl (by rfl)⟩

theorem read_setContent (fs : Fs) (p : FPath) (c : String)
    (log : List (FPath × String)) (q : FPath) :
    (⟨setContent fs.files p c, log⟩ : Fs).read q
      = if q = p then (fs.read p).map (fun _ => c) else fs.read q := by
  show (lookupRec (setContent fs.files p c) q).map (·.content) = _
  rw [lookupRec_setContent]
  by_cases hq : q = p
  · rw [if_pos hq, if_pos hq]
    unfold Fs.read
    cases lookupRec fs.files p <;> rfl
  · rw [if_neg hq, if_neg hq]
    rfl

/-- Counterexample to claim C2 as stated: in `main.rs`'s `process_file` (the
implementation the binary runs), a match whose substituted text equals the
original content still triggers a disk write — the write log gains an event
even though the computed content equals the original byte-for-byte — so
"written to disk only if the two differ" fails on the live code path (only
`file_processor.rs`'s copy performs the comparison). -/
theorem noop_write_cex :
    (litRegex "b").replace_all "abc" "b" = "abc" ∧
    process_file ⟨[(["a"], ⟨"abc", true⟩)], []⟩ ["a"] (litRegex "b") "b" false false
      = .ok (⟨[(["a"], ⟨"abc", true⟩)], [(["a"], "abc")]⟩, true) := ⟨rfl, rfl⟩

/-- Claim C2 (amended): on a non-dry run of a file whose content matches,
`file_processor.rs`'s `process_file` compares the substituted content with
the original byte-for-byte and, when they are equal, performs no write at
all — filesystem contents and write log are returned untouched — while
still returning a matched outcome; `main.rs`'s `process_file`, by contrast,
always writes on a match, appending a write event even when the substituted
content equals the original. -/
theorem write_skip_spec (fs : Fs) (p : FPath) (rx : RegexM) (repl : String)
    (v : Bool) (content : String) (hread : fs.read p = some content)
    (hm : rx.is_match content = true) :
    (rx.replace_all content repl = content →
      FileProcessor.process_file fs p rx repl false v = .ok (fs, true)) ∧
    (∀ fs' b, process_file fs p rx repl false v = .ok (fs', b) →
      b = true ∧ fs'.writeLog = fs.writeLog ++ [(p, rx.replace_all content repl)]) := by
  constructor
  · intro heq
    unfold FileProcessor.process_file
    rw [hread]
    simp [hm, heq]
  · intro fs' b h
    rw [process_file_real_eq, hread] at h
    simp only [hm, if_true] at h
    rcases hwr : fs.write p (rx.replace_all content repl) with _ | fs₂ <;> rw [hwr] at h
    · simp at h
    · simp only [Except.ok.injEq, Prod.mk.injEq] at h
      obtain ⟨h1, h2⟩ := h
      exact ⟨h2.symm, by rw [← h1]; exact write_writeLog hwr⟩

/-- Witness for `write_skip_spec`: on content `abc` with the no-op literal
substitution `b` → `b`, the `file_processor.rs` version returns the
filesystem untouched while reporting a match, and the `main.rs` version's
successful result carries a write event. -/
theorem write_skip_spec_witness :
    FileProcessor.process_file ⟨[(["w"], ⟨"abc", true⟩)], []⟩ ["w"]
        (litRegex "b") "b" false false
      = .ok (⟨[(["w"], ⟨"abc", true⟩)], []⟩, true) ∧
    (true = true ∧
      (⟨[(["w"], ⟨"abc", true⟩)], [(["w"], "abc")]⟩ : Fs).writeLog
        = [] ++ [(["w"], "abc")]) := by
  have h := write_skip_spec ⟨[(["w"], ⟨"abc", true⟩)], []⟩ ["w"] (litRegex "b") "b"
    false "abc" (by rfl) (by rfl)
  exact ⟨h.1 (by rfl), h.2 ⟨[(["w"], ⟨"abc", true⟩)], [(["w"], "abc")]⟩ true (by rfl)⟩

/-- Counterexample to claim C10 as stated: on a read-only file whose match
is a no-op substitution, the two implementations disagree — `main.rs`'s
`process_file` attempts the write and fails with an error, while
`file_processor.rs`'s skips the write and reports success. -/
theorem process_file_equiv_cex :
    process_file ⟨[(["a"], ⟨"abc", false⟩)], []⟩ ["a"] (litRegex "b") "b" false false
      = .error (.writeErr ["a"]) ∧
    FileProcessor.process_file ⟨[(["a"], ⟨"abc", false⟩)], []⟩ ["a"]
        (litRegex "b") "b" false false
      = .ok (⟨[(["a"], ⟨"abc", false⟩)], []⟩, true) := ⟨rfl, rfl⟩

/-- Claim C10 (amended): whenever the target file, if present, is writable,
the two `process_file` implementations are behaviorally equivalent: same
`Ok`/`Err` outcome and the same final content at every path.  Without that
proviso they differ (see the counterexample), because `main.rs`'s version
performs a write even when the substituted content equals the original, and
that write can fail. -/
theorem process_file_equiv_spec (fs : Fs) (p : FPath) (rx : RegexM)
    (repl : String) (dry v : Bool) (hw : writableIfPresent fs p) :
    resOutcome (process_file fs p rx repl dry v)
      = resOutcome (FileProcessor.process_file fs p rx repl dry v) ∧
    ∀ q, finalRead (process_file fs p rx repl dry v) fs q
      = finalRead (FileProcessor.process_file fs p rx repl dry v) fs q := by
  rcases hr : fs.read p with _ | c
  · have e₁ : process_file fs p rx repl dry v = .error (.readErr p) := by
      unfold process_file
      rw [hr]
    have e₂ : FileProcessor.process_file fs p rx repl dry v = .error (.readErr p) := by
      unfold FileProcessor.process_file
      rw [hr]
    rw [e₁, e₂]
    exact ⟨rfl, fun q => rfl⟩
  · by_cases hm : rx.is_match c
    · cases dry
      · -- real run
        obtain ⟨r, hlr, hrc⟩ := read_some_iff.mp hr
        have hwres := write_of_present hlr (hw r hlr) (rx.replace_all c repl)
        have e₁ : process_file fs p rx repl false v
            = .ok (⟨setContent fs.files p (rx.replace_all c repl),
                    fs.writeLog ++ [(p, rx.replace_all c repl)]⟩, true) := by
          rw [process_file_real_eq, hr]
          simp [hm, hwres]
        by_cases heq : rx.replace_all c repl = c
        · have e₂ : FileProcessor.process_file fs p rx repl false v = .ok (fs, true) := by
            unfold FileProcessor.process_file
            rw [hr]
            simp [hm, heq]
          rw [e₁, e₂]
          refine ⟨rfl, fun q => ?_⟩
          show (⟨setContent fs.files p (rx.replace_all c repl),
                 fs.writeLog ++ [(p, rx.replace_all c repl)]⟩ : Fs).read q = fs.read q
          rw [read_setContent]
          by_cases hq : q = p
          · rw [if_pos hq, hq, hr]
            simp [heq]
          · rw [if_neg hq]
        · have e₂ : FileProcessor.process_file fs p rx repl false v
              = .ok (⟨setContent fs.files p (rx.replace_all c repl),
                      fs.writeLog ++ [(p, rx.replace_all c repl)]⟩, true) := by
            unfold FileProcessor.process_file
            rw [hr]
            simp [hm, heq, hwres]
          rw [e₁, e₂]
          exact ⟨rfl, fun q => rfl⟩
      · -- dry run: both return the filesystem unchanged
        have e₁ : process_file fs p rx repl true v = .ok (fs, true) := by
          rw [process_file_dry_eq, hr]
          simp [hm]
        have e₂ : FileProcessor.process_file fs p rx repl true v = .ok (fs, true) := by
          unfold FileProcessor.process_file
          rw [hr]
          simp [hm]
        rw [e₁, e₂]
        exact ⟨rfl, fun q => rfl⟩
    · have e₁ : process_file fs p rx repl dry v = .ok (fs, false) := by
        unfold process_file
        rw [hr]
        simp [hm]
      have e₂ : FileProcessor.process_file fs p rx repl dry v = .ok (fs, false) := by
        unfold FileProcessor.process_file
        rw [hr]
        simp [hm]
      rw [e₁, e₂]
      exact ⟨rfl, fun q => rfl⟩

/-- Witness for `process_file_equiv_spec` on a writable file. -/
theorem process_file_equiv_spec_witness :
    resOutcome (process_file ⟨[(["w"], ⟨"abc", true⟩)], []⟩ ["w"]
        (litRegex "b") "b" false false)
      = resOutcome (FileProcessor.process_file ⟨[(["w"], ⟨"abc", true⟩)], []⟩ ["w"]
          (litRegex "b") "b" false false) ∧
    finalRead (process_file ⟨[(["w"], ⟨"abc", true⟩)], []⟩ ["w"]
        (litRegex "b") "b" false false) ⟨[(["w"], ⟨"abc", true⟩)], []⟩ ["w"]
      = finalRead (FileProcessor.process_file ⟨[(["w"], ⟨"abc", true⟩)], []⟩ ["w"]
          (litRegex "b") "b" false false) ⟨[(["w"], ⟨"abc", true⟩)], []⟩ ["w"] := by
  have h := process_file_equiv_spec ⟨[(["w"], ⟨"abc", true⟩)], []⟩ ["w"]
    (litRegex "b") "b" false false (by
      intro r hlr
      rw [show lookupRec (⟨[(["w"], ⟨"abc", true⟩)], []⟩ : Fs).files ["w"]
            = some ⟨"abc", true⟩ from rfl] at hlr
      injection hlr with hlr
      rw [← hlr])
  exact ⟨h.1, h.2 ["w"]⟩

/-- Counterexample to claim C5 as stated: a matched file that passes both
inclusion filters and is read successfully but whose write fails is counted
in neither counter — the run reports `processed = 0`, so "the processed
counter increments exactly for every file that passed both filters and was
successfully read" fails on the write-failure path. -/
theorem processed_count_cex :
    should_ignore ["r", "a.txt"] ["r"] [] = false ∧
    extOk none ["r", "a.txt"] = true ∧
    Fs.read ⟨[(["r", "a.txt"], ⟨"foo", false⟩)], []⟩ ["r", "a.txt"] = some "foo" ∧
    (mainRun rcLit gcLit envNone (some (.cons (.file "a.txt" ⟨"foo", false⟩) .nil))
        ⟨"foo", "bar", ["r"], none, false, false⟩).map
      (fun st => (st.total_files, st.modified_files, st.errors))
      = .ok (0, 0, [.writeErr ["r", "a.txt"]]) := ⟨rfl, rfl, rfl, rfl⟩

/-- Claim C5 (amended): the processed counter increments exactly for files
that pass both inclusion filters and whose processing returns `Ok` — a
successful read and, when a write is attempted (non-dry matched file), a
successful write; the modified counter increments exactly for such files
whose outcome is `Ok(true)` (matched), independent of whether the written
bytes differ from the original; consequently, over any run, the modified
count never exceeds the processed count. -/
theorem counters_spec (rx : RegexM) (repl : String) (dry v : Bool) (dir : FPath)
    (exts : Option (List String)) (gs : List Glob) (st : RunState) (p : FPath) :
    ((should_ignore p dir gs = false ∧ extOk exts p = true ∧
        okRes (process_file st.fs p rx repl dry v) = true) →
      (step rx repl dry v dir exts gs st p).total_files = st.total_files + 1) ∧
    (¬(should_ignore p dir gs = false ∧ extOk exts p = true ∧
        okRes (process_file st.fs p rx repl dry v) = true) →
      (step rx repl dry v dir exts gs st p).total_files = st.total_files) ∧
    ((should_ignore p dir gs = false ∧ extOk exts p = true ∧
        okTrue (process_file st.fs p rx repl dry v) = true) →
      (step rx repl dry v dir exts gs st p).modified_files = st.modified_files + 1) ∧
    (¬(should_ignore p dir gs = false ∧ extOk exts p = true ∧
        okTrue (process_file st.fs p rx repl dry v) = true) →
      (step rx repl dry v dir exts gs st p).modified_files = st.modified_files) ∧
    (∀ ps st', st'.modified_files ≤ st'.total_files →
      (runLoop rx repl dry v dir exts gs ps st').modified_files
        ≤ (runLoop rx repl dry v dir exts gs ps st').total_files) := by
  have hstep : ∀ (st' : RunState) (q : FPath),
      st'.modified_files ≤ st'.total_files →
      (step rx repl dry v dir exts gs st' q).modified_files
        ≤ (step rx repl dry v dir exts gs st' q).total_files := by
    intro st' q hle
    by_cases hig : should_ignore q dir gs
    · rw [step_skip (Or.inl hig)]
      exact hle
    · by_cases hext : extOk exts q
      · rw [step_of_pf (by simp [hig]) hext]
        rcases process_file st'.fs q rx repl dry v with e | ⟨fs', m⟩
        · exact hle
        · cases m
          · simpa using Nat.le_succ_of_le hle
          · simpa using Nat.succ_le_succ hle
      · rw [step_skip (Or.inr (by simp [hext]))]
        exact hle
  refine ⟨?_, ?_, ?_, ?_, ?_⟩
  · rintro ⟨h1, h2, h3⟩
    rw [step_of_pf h1 h2]
    rcases hpf : process_file st.fs p rx repl dry v with e | ⟨fs', m⟩
    · rw [hpf] at h3
      simp [okRes] at h3
    · rfl
  · intro hn
    by_cases h1 : should_ignore p dir gs
    · rw [step_skip (Or.inl h1)]
    · by_cases h2 : extOk exts p
      · have h1' : should_ignore p dir gs = false := by simp [h1]
        rw [step_of_pf h1' h2]
        rcases hpf : process_file st.fs p rx repl dry v with e | ⟨fs', m⟩
        · rfl
        · exact absurd ⟨h1', h2, by rw [hpf]; rfl⟩ hn
      · rw [step_skip (Or.inr (by simp [h2]))]
  · rintro ⟨h1, h2, h3⟩
    rw [step_of_pf h1 h2]
    rcases hpf : process_file st.fs p rx repl dry v with e | ⟨fs', m⟩
    · rw [hpf] at h3
      simp [okTrue] at h3
    · rw [hpf] at h3
      cases m
      · simp [okTrue] at h3
      · rfl
  · intro hn
    by_cases h1 : should_ignore p dir gs
    · rw [step_skip (Or.inl h1)]
    · by_cases h2 : extOk exts p
      · have h1' : should_ignore p dir gs = false := by simp [h1]
        rw [step_of_pf h1' h2]
        rcases hpf : process_file st.fs p rx repl dry v with e | ⟨fs', m⟩
        · rfl
        · cases m
          · rfl
          · exact absurd ⟨h1', h2, by rw [hpf]; rfl⟩ hn
      · rw [step_skip (Or.inr (by simp [h2]))]
  · intro ps
    induction ps with
    | nil =>
      intro st' hle
      exact hle
    | cons q qs ih =>
      intro st' hle
      rw [runLoop_cons]
      exact ih _ (hstep st' q hle)

/-- Witness for `counters_spec`: a writable matched file increments both
counters by one, and the loop preserves the counter inequality. -/
theorem counters_spec_witness :
    (step (litRegex "a") "b" false false ["r"] none []
        ⟨⟨[(["r", "f.txt"], ⟨"abc", true⟩)], []⟩, 3, 2, []⟩ ["r", "f.txt"]).total_files
      = 3 + 1 ∧
    (step (litRegex "a") "b" false false ["r"] none []
        ⟨⟨[(["r", "f.txt"], ⟨"abc", true⟩)], []⟩, 3, 2, []⟩ ["r", "f.txt"]).modified_files
      = 2 + 1 ∧
    (runLoop (litRegex "a") "b" false false ["r"] none [] [["r", "f.txt"]]
        ⟨⟨[(["r", "f.txt"], ⟨"abc", true⟩)], []⟩, 3, 2, []⟩).modified_files
      ≤ (runLoop (litRegex "a") "b" false false ["r"] none [] [["r", "f.txt"]]
          ⟨⟨[(["r", "f.txt"], ⟨"abc", true⟩)], []⟩, 3, 2, []⟩).total_files := by
  have h := counters_spec (litRegex "a") "b" false false ["r"] none []
    ⟨⟨[(["r", "f.txt"], ⟨"abc", true⟩)], []⟩, 3, 2, []⟩ ["r", "f.txt"]
  exact ⟨h.1 ⟨rfl, rfl, by rfl⟩, h.2.2.1 ⟨rfl, rfl, by rfl⟩,
    h.2.2.2.2 [["r", "f.txt"]] _ (by decide)⟩

/-- Counterexample to claim C3 as stated: on an unwritable file that
matches, a dry run counts it as modified (`modified = 1`) while the
equivalent non-dry run fails the write and excludes the file from the count
(`modified = 0`), so the dry-run modified-count does not always equal the
non-dry count. -/
theorem dry_run_count_cex :
    (mainRun rcLit gcLit envNone (some (.cons (.file "a.txt" ⟨"foo", false⟩) .nil))
        ⟨"foo", "bar", ["r"], none, true, false⟩).map (fun st => st.modified_files)
      = .ok 1 ∧
    (mainRun rcLit gcLit envNone (some (.cons (.file "a.txt" ⟨"foo", false⟩) .nil))
        ⟨"foo", "bar", ["r"], none, false, false⟩).map (fun st => st.modified_files)
      = .ok 0 := ⟨rfl, rfl⟩

/-- Claim C3 (amended): a dry run never touches the filesystem — the final
state's files and write log equal the initial ones — and, provided the walk
visits no path twice and every file in the tree is writable (so the non-dry
run suffers no write failure), the dry run's processed and modified counts
equal those of the equivalent non-dry run. -/
theorem dry_run_spec (rc : String → Option RegexM) (gc : String → Option Glob)
    (env : IgnoreEnv) (ts : Forest) (pat rep : String) (dirp : FPath)
    (exts : Option String) (vb : Bool)
    (hnd : (walkForest ts).Nodup)
    (hw : ∀ e ∈ filesOfForest ts, e.2.writable = true) :
    (∀ st, mainRun rc gc env (some ts) ⟨pat, rep, dirp, exts, true, vb⟩ = .ok st →
      st.fs = ⟨(filesOfForest ts).map (fun e => (dirp ++ e.1, e.2)), []⟩) ∧
    (∀ st₁ st₂, mainRun rc gc env (some ts) ⟨pat, rep, dirp, exts, true, vb⟩ = .ok st₁ →
      mainRun rc gc env (some ts) ⟨pat, rep, dirp, exts, false, vb⟩ = .ok st₂ →
      st₁.total_files = st₂.total_files ∧ st₁.modified_files = st₂.modified_files) := by
  have hfs0w : ∀ q, writableIfPresent
      (⟨(filesOfForest ts).map (fun e => (dirp ++ e.1, e.2)), []⟩ : Fs) q := by
    intro q r hlr
    have hmem := lookupRec_mem hlr
    simp only [List.mem_map] at hmem
    obtain ⟨e, hme, heq⟩ := hmem
    rw [Prod.mk.injEq] at heq
    obtain ⟨-, h2⟩ := heq
    rw [← h2]
    exact hw e hme
  have hpaths : ((walkForest ts).map (fun p => dirp ++ p)).Nodup :=
    hnd.map (fun _ _ h => List.append_cancel_left h)
  rcases hrc : rc pat with _ | rx
  · constructor
    · intro st h
      unfold mainRun at h
      dsimp only at h
      rw [hrc] at h
      simp at h
    · intro st₁ st₂ h1 _
      unfold mainRun at h1
      dsimp only at h1
      rw [hrc] at h1
      simp at h1
  · rcases hbi : build_ignore_set gc env with e | s
    · constructor
      · intro st h
        unfold mainRun at h
        dsimp only at h
        rw [hrc, hbi] at h
        simp at h
      · intro st₁ st₂ h1 _
        unfold mainRun at h1
        dsimp only at h1
        rw [hrc, hbi] at h1
        simp at h1
    · have hmain : ∀ d, mainRun rc gc env (some ts) ⟨pat, rep, dirp, exts, d, vb⟩
          = .ok (runLoop rx rep d vb dirp (exts.map extsOf) s
              ((walkForest ts).map (fun p => dirp ++ p))
              ⟨⟨(filesOfForest ts).map (fun e => (dirp ++ e.1, e.2)), []⟩, 0, 0, []⟩) := by
        intro d
        unfold mainRun
        dsimp only
        rw [hrc, hbi]
        rfl
      constructor
      · intro st h
        rw [hmain true] at h
        injection h with h
        rw [← h]
        exact runLoop_dry_fs rx rep vb dirp (exts.map extsOf) s _ _
      · intro st₁ st₂ h1 h2
        rw [hmain true] at h1
        rw [hmain false] at h2
        injection h1 with h1
        injection h2 with h2
        rw [← h1, ← h2]
        exact runLoop_dry_real_counts rx rep vb dirp (exts.map extsOf) s
          ((walkForest ts).map (fun p => dirp ++ p)) _ _ hpaths
          (fun p _ => rfl) (fun p _ => hfs0w p) rfl rfl

/-- Witness for `dry_run_spec` on a one-file tree: the dry run leaves the
filesystem at its initial state and reports the same counts as the real
run. -/
theorem dry_run_spec_witness :
    (⟨⟨[(["r", "a.txt"], ⟨"foo", true⟩)], []⟩, 1, 1, []⟩ : RunState).fs
      = ⟨(filesOfForest (.cons (.file "a.txt" ⟨"foo", true⟩) .nil)).map
          (fun e => (["r"] ++ e.1, e.2)), []⟩ ∧
    ((⟨⟨[(["r", "a.txt"], ⟨"foo", true⟩)], []⟩, 1, 1, []⟩ : RunState).total_files
        = (⟨⟨[(["r", "a.txt"], ⟨"bar", true⟩)], [(["r", "a.txt"], "bar")]⟩, 1, 1, []⟩
            : RunState).total_files
      ∧ (⟨⟨[(["r", "a.txt"], ⟨"foo", true⟩)], []⟩, 1, 1, []⟩ : RunState).modified_files
        = (⟨⟨[(["r", "a.txt"], ⟨"bar", true⟩)], [(["r", "a.txt"], "bar")]⟩, 1, 1, []⟩
            : RunState).modified_files) := by
  have h := dry_run_spec rcLit gcLit envNone (.cons (.file "a.txt" ⟨"foo", true⟩) .nil)
    "foo" "bar" ["r"] none false (by decide) (by decide)
  exact ⟨h.1 _ (by rfl), h.2 _ _ (by rfl) (by rfl)⟩

theorem load_ignore_file_append (gc : String → Option Glob) (f c : String)
    (b : List Glob) :
    load_ignore_file gc f c b = (load_ignore_file gc f c []).map (b ++ ·) := by
  unfold load_ignore_file
  exact loadLines_append gc f (linesOf c) b

theorem loadIfPresent_eq (gc : String → Option Glob) (name : String)
    (o : Option String) (b : List Glob) :
    loadIfPresent gc name o b = (loadSrc gc name o).map (b ++ ·) := by
  cases o
  · simp [loadIfPresent, loadSrc, Except.map, pure, Except.pure]
  · exact load_ignore_file_append gc name _ b

/-- Counterexample to claim C4 as stated: `build_ignore_set` loads no
built-in default patterns — with no ignore file present anywhere the
compiled set is empty, and a run rewrites a file inside a version-control
directory (`.git/HEAD`), which the claimed built-ins would have excluded. -/
theorem no_builtin_ignore_cex :
    build_ignore_set gcLit envNone = .ok [] ∧
    (mainRun rcLit gcLit envNone
        (some (.cons (.dir ".git" (.cons (.file "HEAD" ⟨"foo", true⟩) .nil)) .nil))
        ⟨"foo", "bar", ["root"], none, false, false⟩).map
      (fun st => (st.total_files, st.modified_files, st.fs.read ["root", ".git", "HEAD"]))
      = .ok (1, 1, some "bar") := ⟨rfl, rfl⟩

/-- Claim C4 (amended): the combined matcher is built by additive merging of
the ignore files from the current working directory, the scan root, and the
home directory, in that order — there are no built-in default patterns —
and every successfully built set is exactly the concatenation of the three
sources' pattern lists, so all loaded sources are enforced simultaneously:
a relative path is ignored iff it matches a pattern of at least one source,
and removing a source only shrinks the set. -/
theorem ignore_additive_spec (gc : String → Option Glob) (env : IgnoreEnv)
    (s : List Glob) (h : build_ignore_set gc env = .ok s) :
    ∃ l₁ l₂ l₃,
      loadSrc gc "./.rr_ignore" env.cwdIgnore = .ok l₁ ∧
      loadSrc gc "{dir}/.rr_ignore" env.localIgnore = .ok l₂ ∧
      loadSrc gc "~/.rr_ignore" env.homeIgnore = .ok l₃ ∧
      s = l₁ ++ l₂ ++ l₃ ∧
      (∀ rel, s.any (fun g => g.is_match rel)
        = (l₁.any (fun g => g.is_match rel) || l₂.any (fun g => g.is_match rel)
            || l₃.any (fun g => g.is_match rel))) := by
  unfold build_ignore_set at h
  simp only [loadIfPresent_eq] at h
  rcases h1 : loadSrc gc "./.rr_ignore" env.cwdIgnore with e1 | l₁ <;> rw [h1] at h
  · simp [Except.map, Bind.bind, Except.bind] at h
  · simp only [Except.map, Bind.bind, Except.bind, List.nil_append] at h
    rcases h2 : loadSrc gc "{dir}/.rr_ignore" env.localIgnore with e2 | l₂ <;> rw [h2] at h
    · simp [Except.map, Bind.bind, Except.bind] at h
    · simp only [Except.map, Bind.bind, Except.bind] at h
      rcases h3 : loadSrc gc "~/.rr_ignore" env.homeIgnore with e3 | l₃ <;> rw [h3] at h
      · simp [Except.map, Bind.bind, Except.bind] at h
      · simp only [Except.map, Bind.bind, Except.bind, pure, Except.pure,
          Except.ok.injEq] at h
        refine ⟨l₁, l₂, l₃, rfl, rfl, rfl, ?_, ?_⟩
        · rw [← h]
        · intro rel
          rw [← h]
          simp [List.any_append, Bool.or_assoc]

/-- Witness for `ignore_additive_spec` at a concrete environment with a cwd
ignore file and a home ignore file. -/
theorem ignore_additive_spec_witness :
    ∃ l₁ l₂ l₃,
      loadSrc gcLit "./.rr_ignore" (some "a") = .ok l₁ ∧
      loadSrc gcLit "{dir}/.rr_ignore" none = .ok l₂ ∧
      loadSrc gcLit "~/.rr_ignore" (some "b") = .ok l₃ ∧
      [(⟨"a", fun rel => decide (rel = ["a"])⟩ : Glob),
       ⟨"b", fun rel => decide (rel = ["b"])⟩] = l₁ ++ l₂ ++ l₃ ∧
      (∀ rel, ([(⟨"a", fun rel => decide (rel = ["a"])⟩ : Glob),
                ⟨"b", fun rel => decide (rel = ["b"])⟩].any (fun g => g.is_match rel))
        = (l₁.any (fun g => g.is_match rel) || l₂.any (fun g => g.is_match rel)
            || l₃.any (fun g => g.is_match rel))) :=
  ignore_additive_spec gcLit ⟨some "a", none, some "b"⟩
    [⟨"a", fun rel => decide (rel = ["a"])⟩, ⟨"b", fun rel => decide (rel = ["b"])⟩]
    (by rfl)

/-- Counterexample to claim C1 as stated: for a tree containing a dotfile
and a non-dotfile that both match the pattern, a default run modifies BOTH
files (and counts both), not only the non-dotfile: the traversal applies no
hidden-entry filter, and `Args` has no hidden-inclusion flag. -/
theorem hidden_not_filtered_cex :
    (mainRun rcLit gcLit envNone
        (some (.cons (.file ".hidden.txt" ⟨"foo", true⟩)
          (.cons (.file "visible.txt" ⟨"foo", true⟩) .nil)))
        ⟨"foo", "bar", ["root"], none, false, false⟩).map
      (fun st => (st.total_files, st.modified_files,
        st.fs.read ["root", ".hidden.txt"], st.fs.read ["root", "visible.txt"]))
      = .ok (2, 2, some "bar", some "bar") := rfl

/-- Claim C1 (amended): traversal applies no hidden-entry filtering at any
level and the program offers no hidden-inclusion flag (`Args` has exactly
pattern, replace, directory, extensions, dry_run and verbose): for ANY two
distinct writable file names — dotfile or not — whose contents match, a
default run enumerates, processes and modifies both identically. -/
theorem traversal_no_hidden_filter (n m c₁ c₂ pat repl : String) (rx : RegexM)
    (dirp : FPath) (gc : String → Option Glob)
    (hnm : n ≠ m) (h₁ : rx.is_match c₁ = true) (h₂ : rx.is_match c₂ = true) :
    (mainRun (fun _ => some rx) gc envNone
        (some (.cons (.file n ⟨c₁, true⟩) (.cons (.file m ⟨c₂, true⟩) .nil)))
        ⟨pat, repl, dirp, none, false, false⟩).map
      (fun st => (st.total_files, st.modified_files,
        st.fs.read (dirp ++ [n]), st.fs.read (dirp ++ [m])))
      = .ok (2, 2, some (rx.replace_all c₁ repl), some (rx.replace_all c₂ repl)) := by
  have hmn : ([m] : List String) ≠ [n] := by
    intro hh
    injection hh with hh
    exact hnm hh.symm
  have hne : (dirp ++ [m] : FPath) ≠ dirp ++ [n] :=
    fun h => hmn (List.append_cancel_left h)
  have hne' : (dirp ++ [n] : FPath) ≠ dirp ++ [m] :=
    fun h => hmn (List.append_cancel_left h).symm
  have hmain : mainRun (fun _ => some rx) gc envNone
      (some (.cons (.file n ⟨c₁, true⟩) (.cons (.file m ⟨c₂, true⟩) .nil)))
      ⟨pat, repl, dirp, none, false, false⟩
      = .ok (runLoop rx repl false false dirp none []
          [dirp ++ [n], dirp ++ [m]]
          ⟨⟨[(dirp ++ [n], ⟨c₁, true⟩), (dirp ++ [m], ⟨c₂, true⟩)], []⟩, 0, 0, []⟩) := rfl
  have hlook1 : lookupRec
      [(dirp ++ [n], (⟨c₁, true⟩ : FileRec)), (dirp ++ [m], ⟨c₂, true⟩)]
      (dirp ++ [n]) = some ⟨c₁, true⟩ := by
    unfold lookupRec
    rw [if_pos rfl]
  have hread1 : (⟨[(dirp ++ [n], ⟨c₁, true⟩), (dirp ++ [m], ⟨c₂, true⟩)], []⟩ : Fs).read
      (dirp ++ [n]) = some c₁ := by
    unfold Fs.read
    rw [hlook1]
    rfl
  have hwrite1 := @write_of_present
    ⟨[(dirp ++ [n], ⟨c₁, true⟩), (dirp ++ [m], ⟨c₂, true⟩)], []⟩ _ _
    hlook1 rfl (rx.replace_all c₁ repl)
  have hpf1 : process_file
      ⟨[(dirp ++ [n], ⟨c₁, true⟩), (dirp ++ [m], ⟨c₂, true⟩)], []⟩
      (dirp ++ [n]) rx repl false false
      = .ok (⟨setContent [(dirp ++ [n], ⟨c₁, true⟩), (dirp ++ [m], ⟨c₂, true⟩)]
              (dirp ++ [n]) (rx.replace_all c₁ repl),
             [(dirp ++ [n], rx.replace_all c₁ repl)]⟩, true) := by
    rw [process_file_real_eq, hread1]
    simp [h₁, hwrite1]
  have hstep1 : step rx repl false false dirp none []
      ⟨⟨[(dirp ++ [n], ⟨c₁, true⟩), (dirp ++ [m], ⟨c₂, true⟩)], []⟩, 0, 0, []⟩
      (dirp ++ [n])
      = ⟨⟨setContent [(dirp ++ [n], ⟨c₁, true⟩), (dirp ++ [m], ⟨c₂, true⟩)]
            (dirp ++ [n]) (rx.replace_all c₁ repl),
          [(dirp ++ [n], rx.replace_all c₁ repl)]⟩, 1, 1, []⟩ := by
    rw [step_of_pf (should_ignore_nil _ _) (by rfl), hpf1]
    rfl
  have hlook2 : lookupRec
      (setContent [(dirp ++ [n], ⟨c₁, true⟩), (dirp ++ [m], ⟨c₂, true⟩)]
        (dirp ++ [n]) (rx.replace_all c₁ repl))
      (dirp ++ [m]) = some ⟨c₂, true⟩ := by
    rw [lookupRec_setContent, if_neg hne]
    simp [lookupRec, hne']
  have hread2 : (⟨setContent [(dirp ++ [n], ⟨c₁, true⟩), (dirp ++ [m], ⟨c₂, true⟩)]
        (dirp ++ [n]) (rx.replace_all c₁ repl),
      [(dirp ++ [n], rx.replace_all c₁ repl)]⟩ : Fs).read (dirp ++ [m]) = some c₂ := by
    unfold Fs.read
    rw [hlook2]
    rfl
  have hwrite2 := @write_of_present
    ⟨setContent [(dirp ++ [n], ⟨c₁, true⟩), (dirp ++ [m], ⟨c₂, true⟩)]
        (dirp ++ [n]) (rx.replace_all c₁ repl),
      [(dirp ++ [n], rx.replace_all c₁ repl)]⟩ _ _
    hlook2 rfl (rx.replace_all c₂ repl)
  have hpf2 : process_file
      ⟨setContent [(dirp ++ [n], ⟨c₁, true⟩), (dirp ++ [m], ⟨c₂, true⟩)]
          (dirp ++ [n]) (rx.replace_all c₁ repl),
        [(dirp ++ [n], rx.replace_all c₁ repl)]⟩
      (dirp ++ [m]) rx repl false false
      = .ok (⟨setContent
                (setContent [(dirp ++ [n], ⟨c₁, true⟩), (dirp ++ [m], ⟨c₂, true⟩)]
                  (dirp ++ [n]) (rx.replace_all c₁ repl))
                (dirp ++ [m]) (rx.replace_all c₂ repl),
              [(dirp ++ [n], rx.replace_all c₁ repl),
               (dirp ++ [m], rx.replace_all c₂ repl)]⟩, true) := by
    rw [process_file_real_eq, hread2]
    simp [h₂, hwrite2]
  have hstep2 : step rx repl false false dirp none []
      ⟨⟨setContent [(dirp ++ [n], ⟨c₁, true⟩), (dirp ++ [m], ⟨c₂, true⟩)]
            (dirp ++ [n]) (rx.replace_all c₁ repl),
          [(dirp ++ [n], rx.replace_all c₁ repl)]⟩, 1, 1, []⟩
      (dirp ++ [m])
      = ⟨⟨setContent
            (setContent [(dirp ++ [n], ⟨c₁, true⟩), (dirp ++ [m], ⟨c₂, true⟩)]
              (dirp ++ [n]) (rx.replace_all c₁ repl))
            (dirp ++ [m]) (rx.replace_all c₂ repl),
          [(dirp ++ [n], rx.replace_all c₁ repl),
           (dirp ++ [m], rx.replace_all c₂ repl)]⟩, 2, 2, []⟩ := by
    rw [step_of_pf (should_ignore_nil _ _) (by rfl), hpf2]
    rfl
  rw [hmain, runLoop_cons, hstep1, runLoop_cons, hstep2, runLoop_nil]
  have hfin1 : lookupRec
      (setContent
        (setContent [(dirp ++ [n], ⟨c₁, true⟩), (dirp ++ [m], ⟨c₂, true⟩)]
          (dirp ++ [n]) (rx.replace_all c₁ repl))
        (dirp ++ [m]) (rx.replace_all c₂ repl))
      (dirp ++ [n]) = some ⟨rx.replace_all c₁ repl, true⟩ := by
    rw [lookupRec_setContent, if_neg hne', lookupRec_setContent, if_pos rfl, hlook1]
    rfl
  have hfin2 : lookupRec
      (setContent
        (setContent [(dirp ++ [n], ⟨c₁, true⟩), (dirp ++ [m], ⟨c₂, true⟩)]
          (dirp ++ [n]) (rx.replace_all c₁ repl))
        (dirp ++ [m]) (rx.replace_all c₂ repl))
      (dirp ++ [m]) = some ⟨rx.replace_all c₂ repl, true⟩ := by
    rw [lookupRec_setContent, if_pos rfl, hlook2]
    rfl
  show Except.ok _ = _
  simp only [Except.ok.injEq]
  unfold Fs.read
  dsimp only
  rw [hfin1, hfin2]
  rfl

/-- Witness for `traversal_no_hidden_filter`: instantiated with a dotfile
name and a visible name, both are modified by a default run. -/
theorem traversal_no_hidden_filter_witness :
    (mainRun (fun _ => some (litRegex "foo")) gcLit envNone
        (some (.cons (.file ".hidden.txt" ⟨"foo", true⟩)
          (.cons (.file "visible.txt" ⟨"foo", true⟩) .nil)))
        ⟨"foo", "bar", ["root"], none, false, false⟩).map
      (fun st => (st.total_files, st.modified_files,
        st.fs.read (["root"] ++ [".hidden.txt"]), st.fs.read (["root"] ++ ["visible.txt"])))
      = .ok (2, 2, some ((litRegex "foo").replace_all "foo" "bar"),
             some ((litRegex "foo").replace_all "foo" "bar")) :=
  traversal_no_hidden_filter ".hidden.txt" "visible.txt" "foo" "foo" "foo" "bar"
    (litRegex "foo") ["root"] gcLit (by decide) (by rfl) (by rfl)
